import Mathlib

/-!
Verification of the UniversalAnalogInput core: a shallow embedding of the
response-curve engine (curves.rs), the profile compiler (profile/profiles.rs,
conversions.rs), the mapping-loop tick (mapping/engine.rs), the shared atomic
gamepad state (gamepad/atomic_state.rs) and the hotkey suppression counter
(input/event_manager.rs).  Machine floats (f32/f64) are modelled as rationals;
machine integers as naturals / integers with explicit clamping and truncation
where the code converts.
-/

namespace UAI

/-- Rust `x.clamp(lo, hi)`: `min (max x lo) hi`. -/
def clampQ (lo hi x : ℚ) : ℚ := min (max x lo) hi

/-- The `1e-10` degeneracy threshold used in curves.rs. -/
def eps : ℚ := 1 / 10 ^ 10

/-- Truncation toward zero, the semantics of Rust `as` float-to-int casts for
in-range values. -/
def truncQ (q : ℚ) : ℤ := if 0 ≤ q then ⌊q⌋ else ⌈q⌉

/-! ## curves.rs -/

/-- Source `ResponseCurve` (profile/profiles.rs). -/
inductive ResponseCurve where
  | Linear
  | Custom
deriving DecidableEq, Repr

/-- Source `CurveParams` (profile/profiles.rs): smoothing flag plus custom control
points, a point being an (x, y) pair. -/
structure CurveParams where
  use_smooth_interpolation : Bool
  custom_points : List (ℚ × ℚ)
deriving DecidableEq, Repr

/-- Source `linear_interp` (curves.rs). -/
def linear_interp (t y0 delta : ℚ) : ℚ := y0 + t * delta

/-- Source `hermite_interp` (curves.rs): cubic Hermite basis with tangents scaled by
segment length. -/
def hermite_interp (t p0 p1 m0 m1 dx : ℚ) : ℚ :=
  let t2 := t * t
  let t3 := t2 * t
  let h00 := 2 * t3 - 3 * t2 + 1
  let h10 := t3 - 2 * t2 + t
  let h01 := -2 * t3 + 3 * t2
  let h11 := t3 - t2
  h00 * p0 + h10 * dx * m0 + h01 * p1 + h11 * dx * m1

/-- The bracket condition of iteration `i` of the search loop in
`UnifiedCurve::interpolate_at_point` (curves.rs line 93): `x >= p1.0 && x <= p2.0`. -/
def bracketAt (points : List (ℚ × ℚ)) (x : ℚ) (i : ℕ) : Prop :=
  (points.getD i (0, 0)).1 ≤ x ∧ x ≤ (points.getD (i + 1) (0, 0)).1

instance (points : List (ℚ × ℚ)) (x : ℚ) (i : ℕ) :
    Decidable (bracketAt points x i) :=
  inferInstanceAs (Decidable (_ ∧ _))

/-- The body of one found-bracket iteration of the search loop
(curves.rs lines 94-124): degenerate-segment average, Hermite segment with
estimated tangents (smooth mode, clamped) or straight-line interpolation. -/
def segmentEval (points : List (ℚ × ℚ)) (x : ℚ) (use_smooth : Bool) (i : ℕ) : ℚ :=
  let p1 := points.getD i (0, 0)
  let p2 := points.getD (i + 1) (0, 0)
  let dx := p2.1 - p1.1
  if |dx| < eps then
    (p1.2 + p2.2) * (1 / 2)
  else
    let t := (x - p1.1) / dx
    if use_smooth then
      let m1 :=
        if i = 0 then (p2.2 - p1.2) / dx
        else
          let p0 := points.getD (i - 1) (0, 0)
          let dx0 := max (p1.1 - p0.1) eps
          ((p2.2 - p1.2) / dx + (p1.2 - p0.2) / dx0) * (1 / 2)
      let m2 :=
        if i = points.length - 2 then (p2.2 - p1.2) / dx
        else
          let p3 := points.getD (i + 2) (0, 0)
          let dx2 := max (p3.1 - p2.1) eps
          ((p3.2 - p2.2) / dx2 + (p2.2 - p1.2) / dx) * (1 / 2)
      clampQ 0 1 (hermite_interp t p1.2 p2.2 m1 m2 dx)
    else
      linear_interp t p1.2 (p2.2 - p1.2)

/-- The flat-extrapolation fallback after the search loop
(curves.rs lines 128-132). -/
def searchFallback (points : List (ℚ × ℚ)) (x : ℚ) : ℚ :=
  if x ≤ (points.getD 0 (0, 0)).1 then (points.getD 0 (0, 0)).2
  else (points.getD (points.length - 1) (0, 0)).2

/-- The bracket-search loop of `UnifiedCurve::interpolate_at_point`
(curves.rs lines 89-126), indexed by the loop counter `i`. -/
def interpSearch (points : List (ℚ × ℚ)) (x : ℚ) (use_smooth : Bool) (i : ℕ) : ℚ :=
  if h : i < points.length - 1 then
    if bracketAt points x i then segmentEval points x use_smooth i
    else interpSearch points x use_smooth (i + 1)
  else searchFallback points x
termination_by points.length - 1 - i

/-- Source `UnifiedCurve::interpolate_at_point` (curves.rs lines 81-133). -/
def interpolate_at_point (points : List (ℚ × ℚ)) (x : ℚ) (use_smooth : Bool) : ℚ :=
  if points.isEmpty then x
  else if points.length = 1 then (points.getD 0 (0, 0)).2
  else interpSearch points x use_smooth 0

/-- Number of LUT entries (curves.rs `LUT_SIZE`). -/
def LUT_SIZE : ℕ := 256

/-- Source `UnifiedCurve` (curves.rs): curve type, sorted params, dead zones and the
optional pre-computed lookup table.  The table is modelled as a function from
the entry index; all accesses in the code are bounds-guarded below 256. -/
structure UnifiedCurve where
  curve_type : ResponseCurve
  params : CurveParams
  dead_zone_inner : ℚ
  dead_zone_outer : ℚ
  lut : Option (ℕ → ℚ)

/-- Source `UnifiedCurve::new` (curves.rs lines 43-77): stable-sorts the custom
points by x, then builds the 256-entry LUT (sampling `interpolate_at_point`
at `i / 255`) when the curve is Custom with non-empty points. -/
def UnifiedCurve.new (curve_type : ResponseCurve) (params : CurveParams)
    (dead_zone_inner dead_zone_outer : ℚ) : UnifiedCurve :=
  let sortedPoints :=
    params.custom_points.insertionSort (fun a b => a.1 ≤ b.1)
  let params' : CurveParams :=
    { use_smooth_interpolation := params.use_smooth_interpolation
      custom_points := sortedPoints }
  let lut : Option (ℕ → ℚ) :=
    if curve_type = ResponseCurve.Custom ∧ ¬sortedPoints.isEmpty then
      some (fun i =>
        interpolate_at_point sortedPoints ((i : ℚ) / (LUT_SIZE - 1 : ℕ))
          params.use_smooth_interpolation)
    else none
  { curve_type := curve_type
    params := params'
    dead_zone_inner := dead_zone_inner
    dead_zone_outer := dead_zone_outer
    lut := lut }

/-- Source `UnifiedCurve::lut_lookup` (curves.rs lines 152-167). -/
def lut_lookup (x : ℚ) (lut : ℕ → ℚ) : ℚ :=
  let xc := clampQ 0 1 x
  let indexF := xc * (LUT_SIZE - 1 : ℕ)
  let index := (⌊indexF⌋).toNat
  if LUT_SIZE - 1 ≤ index then lut (LUT_SIZE - 1)
  else
    let fract := indexF - (index : ℚ)
    let v0 := lut index
    let v1 := lut (index + 1)
    v0 + fract * (v1 - v0)

/-- Source `UnifiedCurve::apply_curve` (curves.rs lines 137-148). -/
def UnifiedCurve.apply_curve (c : UnifiedCurve) (normalized_input : ℚ) : ℚ :=
  match c.curve_type with
  | ResponseCurve.Linear => normalized_input
  | ResponseCurve.Custom =>
    match c.lut with
    | some lut => lut_lookup normalized_input lut
    | none => normalized_input

/-- Source `UnifiedCurve::process_input` (curves.rs lines 173-187): dead zones,
normalization, then the curve. -/
def UnifiedCurve.process_input (c : UnifiedCurve) (raw_value : ℚ) : ℚ :=
  if raw_value < c.dead_zone_inner then 0
  else
    let clamped := min raw_value c.dead_zone_outer
    let normalized :=
      if c.dead_zone_inner < c.dead_zone_outer then
        (clamped - c.dead_zone_inner) / (c.dead_zone_outer - c.dead_zone_inner)
      else clamped
    c.apply_curve normalized

/-! ### C6: Hermite segment semantics -/

/-- Slope of the segment from control point `i` to control point `i + 1`. -/
def segSlope (points : List (ℚ × ℚ)) (i : ℕ) : ℚ :=
  ((points.getD (i + 1) (0, 0)).2 - (points.getD i (0, 0)).2) /
    ((points.getD (i + 1) (0, 0)).1 - (points.getD i (0, 0)).1)

/-- The tangent the spec prescribes at control point `i`: the slope of the
single adjacent segment at an endpoint, the average of the slopes of the two
adjacent segments at an interior point. -/
def specTangent (points : List (ℚ × ℚ)) (i : ℕ) : ℚ :=
  if i = 0 then segSlope points 0
  else if i = points.length - 1 then segSlope points (i - 1)
  else (segSlope points (i - 1) + segSlope points i) / 2

/-! ## conversions.rs and profile/profiles.rs -/

/-- Source `key_name_to_vk` (conversions.rs lines 176-256): display name to Windows
virtual-key code; returns 0 when the name is unknown. -/
def key_name_to_vk (key_name : String) : ℕ :=
  match key_name with
  | "A" => 0x41
  | "B" => 0x42
  | "C" => 0x43
  | "D" => 0x44
  | "E" => 0x45
  | "F" => 0x46
  | "G" => 0x47
  | "H" => 0x48
  | "I" => 0x49
  | "J" => 0x4A
  | "K" => 0x4B
  | "L" => 0x4C
  | "M" => 0x4D
  | "N" => 0x4E
  | "O" => 0x4F
  | "P" => 0x50
  | "Q" => 0x51
  | "R" => 0x52
  | "S" => 0x53
  | "T" => 0x54
  | "U" => 0x55
  | "V" => 0x56
  | "W" => 0x57
  | "X" => 0x58
  | "Y" => 0x59
  | "Z" => 0x5A
  | "1" => 0x31
  | "2" => 0x32
  | "3" => 0x33
  | "4" => 0x34
  | "5" => 0x35
  | "6" => 0x36
  | "7" => 0x37
  | "8" => 0x38
  | "9" => 0x39
  | "0" => 0x30
  | "F1" => 0x70
  | "F2" => 0x71
  | "F3" => 0x72
  | "F4" => 0x73
  | "F5" => 0x74
  | "F6" => 0x75
  | "F7" => 0x76
  | "F8" => 0x77
  | "F9" => 0x78
  | "F10" => 0x79
  | "F11" => 0x7A
  | "F12" => 0x7B
  | "Space" => 0x20
  | "Enter" => 0x0D
  | "Esc" => 0x1B
  | "Tab" => 0x09
  | "Backspace" => 0x08
  | "Delete" => 0x2E
  | "Insert" => 0x2D
  | "Home" => 0x24
  | "End" => 0x23
  | "Page Up" => 0x21
  | "Page Down" => 0x22
  | "Up" => 0x26
  | "Down" => 0x28
  | "Left" => 0x25
  | "Right" => 0x27
  | "Shift" => 0x10
  | "Ctrl" => 0x11
  | "Alt" => 0x12
  | "Win" => 0x5B
  | "Left Mouse" => 0x01
  | "Right Mouse" => 0x02
  | "Middle Mouse" => 0x04
  | _ => 0

/-- Source `GamepadControl` (profile/profiles.rs). -/
inductive GamepadControl where
  | LeftStickUp
  | LeftStickDown
  | LeftStickLeft
  | LeftStickRight
  | RightStickUp
  | RightStickDown
  | RightStickLeft
  | RightStickRight
  | LeftTrigger
  | RightTrigger
  | ButtonA
  | ButtonB
  | ButtonX
  | ButtonY
  | LeftShoulder
  | RightShoulder
  | DPadUp
  | DPadDown
  | DPadLeft
  | DPadRight
deriving DecidableEq, Repr

/-- Source `HotKey` (profile/profiles.rs): key name plus modifier bitmask
(Ctrl=1, Alt=2, Shift=4, Win=8). -/
structure HotKey where
  key_name : String
  modifiers : ℕ
deriving DecidableEq, Repr

/-- Source `HotKey::get_vk_code` (profile/profiles.rs). -/
def HotKey.get_vk_code (h : HotKey) : ℕ := key_name_to_vk h.key_name

/-- Source `KeyMapping` (profile/profiles.rs). -/
structure KeyMapping where
  key_name : String
  gamepad_control : GamepadControl
  response_curve : ResponseCurve
  dead_zone_inner : ℚ
  dead_zone_outer : ℚ
  curve_params : CurveParams
  created_at : ℕ
  modified_at : ℕ

/-- Source `KeyMapping::get_vk_code` (profile/profiles.rs). -/
def KeyMapping.get_vk_code (m : KeyMapping) : ℕ := key_name_to_vk m.key_name

/-- Source `SubProfile` (profile/profiles.rs); the Uuid id is modelled as a natural. -/
structure SubProfile where
  id : ℕ
  name : String
  description : String
  hotkey : Option HotKey
  mappings : List KeyMapping
  created_at : ℕ
  modified_at : ℕ

/-- Source `GameProfile` (profile/profiles.rs). -/
structure GameProfile where
  id : ℕ
  name : String
  description : String
  game_path : Option String
  sub_profiles : List SubProfile
  created_at : ℕ
  modified_at : ℕ
  hotkey : Option HotKey

/-- Source `CompiledMapping` (profile/profiles.rs). -/
structure CompiledMapping where
  gamepad_control : GamepadControl
  curve : UnifiedCurve

/-- Source `CompiledMapping::process_input` (profile/profiles.rs lines 250-252). -/
def CompiledMapping.process_input (cm : CompiledMapping) (raw_value : ℚ) : ℚ :=
  cm.curve.process_input raw_value

/-- Source `CompiledProfile` (profile/profiles.rs): the `HashMap<u16, CompiledMapping>`
is modelled by its lookup function. -/
structure CompiledProfile where
  mappings : ℕ → Option CompiledMapping
  hotkey : Option HotKey

/-- Source `HashMap::insert`: overwrite-on-collision insertion, as a lookup function. -/
def insertMapping (m : ℕ → Option CompiledMapping) (k : ℕ) (v : CompiledMapping) :
    ℕ → Option CompiledMapping :=
  fun q => if q = k then some v else m q

/-- The compiled form of one `KeyMapping`
(profile/profiles.rs lines 194-202). -/
def compileMapping (m : KeyMapping) : CompiledMapping :=
  { gamepad_control := m.gamepad_control
    curve := UnifiedCurve.new m.response_curve m.curve_params
      m.dead_zone_inner m.dead_zone_outer }

/-- Source `GameProfile::compile_profile` (profile/profiles.rs lines 177-210):
find the named sub-profile (None when absent), then insert each mapping at
`key_name_to_vk` of its key name. -/
def compile_profile (gp : GameProfile) (sub_profile_name : String) :
    Option CompiledProfile :=
  match gp.sub_profiles.find? (fun sp => sp.name == sub_profile_name) with
  | none => none
  | some sp =>
    some { mappings :=
             sp.mappings.foldl
               (fun acc m => insertMapping acc m.get_vk_code (compileMapping m))
               (fun _ => none)
           hotkey := sp.hotkey }

/-- A concrete profile whose only sub-profile holds a single mapping with an
unknown key name. -/
def bogusMapping : KeyMapping :=
  { key_name := "Bogus"
    gamepad_control := GamepadControl.LeftStickUp
    response_curve := ResponseCurve.Linear
    dead_zone_inner := 1/20
    dead_zone_outer := 19/20
    curve_params := ⟨false, []⟩
    created_at := 0
    modified_at := 0 }

def bogusSubProfile : SubProfile :=
  { id := 0
    name := "Main"
    description := ""
    hotkey := none
    mappings := [bogusMapping]
    created_at := 0
    modified_at := 0 }

def bogusProfile : GameProfile :=
  { id := 0
    name := "Test"
    description := ""
    game_path := none
    sub_profiles := [bogusSubProfile]
    created_at := 0
    modified_at := 0
    hotkey := none }

/-! ## gamepad/atomic_state.rs -/

/-- Source `AtomicGamepadState` (gamepad/atomic_state.rs): 16-bit button bitmask,
four signed 16-bit stick axes, two unsigned 8-bit triggers. -/
structure AtomicGamepadState where
  buttons : ℕ
  thumb_lx : ℤ
  thumb_ly : ℤ
  thumb_rx : ℤ
  thumb_ry : ℤ
  left_trigger : ℕ
  right_trigger : ℕ
deriving DecidableEq, Repr

/-- Source `AtomicGamepadState::new` (gamepad/atomic_state.rs lines 20-30). -/
def AtomicGamepadState.initial : AtomicGamepadState :=
  { buttons := 0, thumb_lx := 0, thumb_ly := 0, thumb_rx := 0, thumb_ry := 0
    left_trigger := 0, right_trigger := 0 }

/-- The effect on the button bitmask of one `set_button` call
(gamepad/atomic_state.rs lines 33-52).  The compare-exchange retry loop makes
the whole read-modify-write atomic, so one call is one application of this
function; `!button_mask` on u16 is `0xFFFF ^^^ mask`. -/
def set_button_mask (current mask : ℕ) (pressed : Bool) : ℕ :=
  if pressed then current ||| mask else current &&& (0xFFFF ^^^ mask)

/-- Source `AtomicGamepadState::set_button` on the whole state. -/
def AtomicGamepadState.set_button (st : AtomicGamepadState) (mask : ℕ)
    (pressed : Bool) : AtomicGamepadState :=
  { st with buttons := set_button_mask st.buttons mask pressed }

/-- Source `AtomicGamepadState::set_sticks` (gamepad/atomic_state.rs lines 60-77):
each input clamped to [-1, 1] then scaled by 32767 and truncated to i16. -/
def AtomicGamepadState.set_sticks (st : AtomicGamepadState)
    (left_x left_y right_x right_y : ℚ) : AtomicGamepadState :=
  { st with
    thumb_lx := truncQ (clampQ (-1) 1 left_x * 32767)
    thumb_ly := truncQ (clampQ (-1) 1 left_y * 32767)
    thumb_rx := truncQ (clampQ (-1) 1 right_x * 32767)
    thumb_ry := truncQ (clampQ (-1) 1 right_y * 32767) }

/-- Source `AtomicGamepadState::set_triggers` (gamepad/atomic_state.rs lines 80-85):
each input clamped to [0, 1] then scaled by 255 and truncated to u8. -/
def AtomicGamepadState.set_triggers (st : AtomicGamepadState)
    (left right : ℚ) : AtomicGamepadState :=
  { st with
    left_trigger := (truncQ (clampQ 0 1 left * 255)).toNat
    right_trigger := (truncQ (clampQ 0 1 right * 255)).toNat }

/-- Source `vigem_client::XGamepad`: the transmitted report layout. -/
structure XGamepad where
  buttons : ℕ
  thumb_lx : ℤ
  thumb_ly : ℤ
  thumb_rx : ℤ
  thumb_ry : ℤ
  left_trigger : ℕ
  right_trigger : ℕ
deriving DecidableEq, Repr

/-- Source `AtomicGamepadState::to_vigem_gamepad` (gamepad/atomic_state.rs
lines 88-98): one full snapshot of every field. -/
def AtomicGamepadState.to_vigem_gamepad (st : AtomicGamepadState) : XGamepad :=
  { buttons := st.buttons
    thumb_lx := st.thumb_lx
    thumb_ly := st.thumb_ly
    thumb_rx := st.thumb_rx
    thumb_ry := st.thumb_ry
    left_trigger := st.left_trigger
    right_trigger := st.right_trigger }

/-! ## mapping/engine.rs -/

/-- One polled analog input (key code plus depth value). -/
structure AnalogInput where
  key_code : ℕ
  analog_value : ℚ
deriving DecidableEq, Repr

/-- The `matches!` analog-control test of the mapping loop
(mapping/engine.rs lines 265-277). -/
def isAnalogControl : GamepadControl → Bool
  | GamepadControl.LeftStickUp => true
  | GamepadControl.LeftStickDown => true
  | GamepadControl.LeftStickLeft => true
  | GamepadControl.LeftStickRight => true
  | GamepadControl.RightStickUp => true
  | GamepadControl.RightStickDown => true
  | GamepadControl.RightStickLeft => true
  | GamepadControl.RightStickRight => true
  | GamepadControl.LeftTrigger => true
  | GamepadControl.RightTrigger => true
  | _ => false

/-- The per-frame accumulators of the mapping loop
(mapping/engine.rs lines 246-257). -/
structure Accums where
  left_trigger_val : ℚ
  right_trigger_val : ℚ
  left_x_positive : ℚ
  left_x_negative : ℚ
  left_y_positive : ℚ
  left_y_negative : ℚ
  right_x_positive : ℚ
  right_x_negative : ℚ
  right_y_positive : ℚ
  right_y_negative : ℚ
deriving DecidableEq, Repr

def initAccums : Accums :=
  { left_trigger_val := 0, right_trigger_val := 0
    left_x_positive := 0, left_x_negative := 0
    left_y_positive := 0, left_y_negative := 0
    right_x_positive := 0, right_x_negative := 0
    right_y_positive := 0, right_y_negative := 0 }

/-- One iteration of the per-input loop (mapping/engine.rs lines 260-327):
look the key up in the compiled profile, skip misses and digital mappings,
otherwise run the curve and max-aggregate into the control accumulator. -/
def accumStep (profile : CompiledProfile) (a : Accums) (input : AnalogInput) :
    Accums :=
  match profile.mappings input.key_code with
  | some compiled_mapping =>
    if isAnalogControl compiled_mapping.gamepad_control then
      let processed_value := compiled_mapping.process_input input.analog_value
      match compiled_mapping.gamepad_control with
      | GamepadControl.LeftStickUp =>
        { a with left_y_positive := max processed_value a.left_y_positive }
      | GamepadControl.LeftStickDown =>
        { a with left_y_negative := max processed_value a.left_y_negative }
      | GamepadControl.LeftStickLeft =>
        { a with left_x_negative := max processed_value a.left_x_negative }
      | GamepadControl.LeftStickRight =>
        { a with left_x_positive := max processed_value a.left_x_positive }
      | GamepadControl.RightStickUp =>
        { a with right_y_positive := max processed_value a.right_y_positive }
      | GamepadControl.RightStickDown =>
        { a with right_y_negative := max processed_value a.right_y_negative }
      | GamepadControl.RightStickLeft =>
        { a with right_x_negative := max processed_value a.right_x_negative }
      | GamepadControl.RightStickRight =>
        { a with right_x_positive := max processed_value a.right_x_positive }
      | GamepadControl.LeftTrigger =>
        { a with left_trigger_val := max processed_value a.left_trigger_val }
      | GamepadControl.RightTrigger =>
        { a with right_trigger_val := max processed_value a.right_trigger_val }
      | _ => a
    else a
  | none => a

/-- The whole per-input loop over one tick of the input buffer. -/
def accumulate (profile : CompiledProfile) (inputs : List AnalogInput) : Accums :=
  inputs.foldl (accumStep profile) initAccums

/-- The four signed stick axes of one tick
(mapping/engine.rs lines 331-334): positive minus negative accumulator,
clamped to [-1, 1].  Order: left x, left y, right x, right y. -/
def tickStickAxes (a : Accums) : ℚ × ℚ × ℚ × ℚ :=
  (clampQ (-1) 1 (a.left_x_positive - a.left_x_negative),
   clampQ (-1) 1 (a.left_y_positive - a.left_y_negative),
   clampQ (-1) 1 (a.right_x_positive - a.right_x_negative),
   clampQ (-1) 1 (a.right_y_positive - a.right_y_negative))

/-- One tick of `mapping_loop_optimized` (mapping/engine.rs lines 226-355)
after the input poll: given whether the poll succeeded, the polled buffer,
the loaded profile snapshot and the shared state, returns the updated shared
state and the report transmitted to the ViGEm sink this tick (`none` when
nothing is transmitted). -/
def mappingTick (input_success : Bool) (input_buffer : List AnalogInput)
    (profile : Option CompiledProfile) (st : AtomicGamepadState) :
    AtomicGamepadState × Option XGamepad :=
  if input_success = true ∧ input_buffer ≠ [] then
    match profile with
    | some p =>
      let a := accumulate p input_buffer
      let axes := tickStickAxes a
      let st1 := st.set_sticks axes.1 axes.2.1 axes.2.2.1 axes.2.2.2
      let st2 := st1.set_triggers a.left_trigger_val a.right_trigger_val
      (st2, some st2.to_vigem_gamepad)
    | none => (st, none)
  else (st, none)

/-- The per-control list of processed curve outputs contributed by the
inputs of one tick. -/
def contributions (profile : CompiledProfile) (inputs : List AnalogInput)
    (c : GamepadControl) : List ℚ :=
  inputs.filterMap (fun input =>
    match profile.mappings input.key_code with
    | some cm =>
      if cm.gamepad_control = c then
        some (cm.process_input input.analog_value)
      else none
    | none => none)

/-- Maximum of a tick-s contributions to one control, starting from the
zero the accumulators are reset to. -/
def maxContrib (profile : CompiledProfile) (inputs : List AnalogInput)
    (c : GamepadControl) : ℚ :=
  (contributions profile inputs c).foldl max 0

/-- A compiled mapping sending a key to LeftStickUp through an identity
linear curve (dead zones 0 / 1). -/
def upMapping : CompiledMapping :=
  { gamepad_control := GamepadControl.LeftStickUp
    curve := UnifiedCurve.new ResponseCurve.Linear ⟨false, []⟩ 0 1 }

/-- A compiled profile mapping keys W (0x57) and A (0x41) both to
LeftStickUp. -/
def exampleProfile : CompiledProfile :=
  { mappings := fun k => if k = 0x57 ∨ k = 0x41 then some upMapping else none
    hotkey := none }

/-! ### C4: max-aggregation and signed axes -/

/-- The accumulator that the loop feeds for a given analog control
(0 for digital controls, which the loop skips). -/
def Accums.field (a : Accums) (c : GamepadControl) : ℚ :=
  match c with
  | GamepadControl.LeftStickUp => a.left_y_positive
  | GamepadControl.LeftStickDown => a.left_y_negative
  | GamepadControl.LeftStickLeft => a.left_x_negative
  | GamepadControl.LeftStickRight => a.left_x_positive
  | GamepadControl.RightStickUp => a.right_y_positive
  | GamepadControl.RightStickDown => a.right_y_negative
  | GamepadControl.RightStickLeft => a.right_x_negative
  | GamepadControl.RightStickRight => a.right_x_positive
  | GamepadControl.LeftTrigger => a.left_trigger_val
  | GamepadControl.RightTrigger => a.right_trigger_val
  | _ => 0

/-! ### C9: disjoint concurrent set_button calls -/

/-- Applying a sequence of `set_button` read-modify-write operations in some
interleaving order: each element is (bit index, pressed).  Since the CAS
retry loop of `set_button` makes the whole read-modify-write atomic, any
concurrent execution is some such sequence. -/
def runButtonOps (ops : List (ℕ × Bool)) (init : ℕ) : ℕ :=
  ops.foldl (fun s op => set_button_mask s (2 ^ op.1) op.2) init

/-! ## input/event_manager.rs: hotkey suppression -/

/-- Source `suspend_hotkeys` (event_manager.rs lines 358-360): one atomic
increment of the suppression counter. -/
def suspend_hotkeys (c : ℕ) : ℕ := c + 1

/-- Source `resume_hotkeys` (event_manager.rs lines 362-375): the compare-exchange
loop decrements only while the counter is positive and exits without a
change at zero. -/
def resume_hotkeys (c : ℕ) : ℕ := if 0 < c then c - 1 else c

inductive HotkeyOp where
  | suspend
  | resume
deriving DecidableEq, Repr

def applyHotkeyOp (c : ℕ) : HotkeyOp → ℕ
  | HotkeyOp.suspend => suspend_hotkeys c
  | HotkeyOp.resume => resume_hotkeys c

/-- The suppression counter after a sequence of suspend / resume calls,
starting from its initial value 0. -/
def runHotkeyOps (ops : List HotkeyOp) : ℕ := ops.foldl applyHotkeyOp 0

def countSuspend : List HotkeyOp → ℕ
  | [] => 0
  | HotkeyOp.suspend :: rest => countSuspend rest + 1
  | HotkeyOp.resume :: rest => countSuspend rest

def countResume : List HotkeyOp → ℕ
  | [] => 0
  | HotkeyOp.suspend :: rest => countResume rest
  | HotkeyOp.resume :: rest => countResume rest + 1

/-- One queued key event as seen by the processing thread. -/
structure KeyInput where
  vk_code : ℕ
  modifiers : ℕ
deriving DecidableEq, Repr

/-- Source `process_hotkeys` (event_manager.rs lines 510-541), modelled by the list
of callback targets it invokes: nothing while the suppression counter is
positive, otherwise the targets of the first registered hotkey matching the
event-s key code and exact modifier bitmask. -/
def process_hotkeys {Target : Type} (hotkey_mappings : List (HotKey × List Target))
    (hotkey_suppression : ℕ) (key_input : KeyInput) : List Target :=
  if 0 < hotkey_suppression then []
  else
    match hotkey_mappings.find? (fun e =>
      e.1.get_vk_code == key_input.vk_code && e.1.modifiers == key_input.modifiers) with
    | some e => e.2
    | none => []

/-! ## Claim theorems and supporting lemmas -/

/-! ### C3: dead-zone handling in process_input -/

/-- C3: For every curve evaluator: raw input strictly below the inner dead
zone yields exactly 0; otherwise the raw value is clamped to the outer dead
zone, normalized by `(clamped - inner) / (outer - inner)` when `outer > inner`
and passed through unchanged when the dead zone is degenerate, before the
curve applies; and for a Linear curve with `outer > inner`, every raw value at
or above the outer dead zone yields exactly 1. -/
theorem c3_dead_zone_semantics (ct : ResponseCurve) (p : CurveParams)
    (inner outer raw : ℚ) :
    (raw < inner → (UnifiedCurve.new ct p inner outer).process_input raw = 0) ∧
    (inner ≤ raw →
      (UnifiedCurve.new ct p inner outer).process_input raw =
        (UnifiedCurve.new ct p inner outer).apply_curve
          (if inner < outer then (min raw outer - inner) / (outer - inner)
           else min raw outer)) ∧
    (ct = ResponseCurve.Linear → inner < outer → outer ≤ raw →
      (UnifiedCurve.new ct p inner outer).process_input raw = 1) := by
  refine ⟨?_, ?_, ?_⟩
  · intro hlt
    simp only [UnifiedCurve.process_input, UnifiedCurve.new]
    rw [if_pos hlt]
  · intro hge
    simp only [UnifiedCurve.process_input, UnifiedCurve.new]
    rw [if_neg (not_lt.mpr hge)]
  · intro hlin hio hor
    have hge : inner ≤ raw := le_of_lt (lt_of_lt_of_le hio hor)
    simp only [UnifiedCurve.process_input, UnifiedCurve.new]
    rw [if_neg (not_lt.mpr hge), if_pos hio]
    have hmin : min raw outer = outer := min_eq_right hor
    rw [hmin]
    have hne : outer - inner ≠ 0 := sub_ne_zero.mpr (ne_of_gt hio)
    rw [div_self hne]
    subst hlin
    simp [UnifiedCurve.apply_curve]

/-- Witness for C3 at concrete inputs: the W-key scenario (dead zones
0.05 / 0.95), raw 0.01 gives 0 and raw 0.95 gives 1. -/
theorem c3_dead_zone_semantics_witness :
    (UnifiedCurve.new ResponseCurve.Linear ⟨false, []⟩ (1/20) (19/20)).process_input
        (1/100) = 0 ∧
    (UnifiedCurve.new ResponseCurve.Linear ⟨false, []⟩ (1/20) (19/20)).process_input
        (19/20) = 1 :=
  ⟨(c3_dead_zone_semantics ResponseCurve.Linear ⟨false, []⟩ (1/20) (19/20)
      (1/100)).1 (by norm_num),
   (c3_dead_zone_semantics ResponseCurve.Linear ⟨false, []⟩ (1/20) (19/20)
      (19/20)).2.2 rfl (by norm_num) le_rfl⟩

/-! ### Lemmas about the bracket search -/

theorem interpSearch_skip (points : List (ℚ × ℚ)) (x : ℚ) (s : Bool) (i : ℕ)
    (h : i < points.length - 1) (hfail : ¬ bracketAt points x i) :
    interpSearch points x s i = interpSearch points x s (i + 1) := by
  rw [interpSearch]
  simp only [dif_pos h, if_neg hfail]

theorem interpSearch_found (points : List (ℚ × ℚ)) (x : ℚ) (s : Bool) (i : ℕ)
    (h : i < points.length - 1) (hb : bracketAt points x i) :
    interpSearch points x s i = segmentEval points x s i := by
  rw [interpSearch]
  simp only [dif_pos h, if_pos hb]

theorem interpSearch_fallback (points : List (ℚ × ℚ)) (x : ℚ) (s : Bool) (i : ℕ)
    (h : ¬ i < points.length - 1) :
    interpSearch points x s i = searchFallback points x := by
  rw [interpSearch]
  simp only [dif_neg h]

theorem interpSearch_reach_aux (points : List (ℚ × ℚ)) (x : ℚ) (s : Bool) (i : ℕ) :
    ∀ n k, i - k ≤ n → k ≤ i → (∀ j, k ≤ j → j < i → ¬ bracketAt points x j) →
    interpSearch points x s k = interpSearch points x s i := by
  intro n
  induction n with
  | zero =>
    intro k hn hk _
    have : k = i := by omega
    rw [this]
  | succ n ih =>
    intro k hn hk hfail
    rcases Nat.eq_or_lt_of_le hk with heq | hklt
    · rw [heq]
    by_cases hlen : k < points.length - 1
    · rw [interpSearch_skip points x s k hlen (hfail k le_rfl hklt)]
      exact ih (k + 1) (by omega) (by omega) (fun j hj1 hj2 => hfail j (by omega) hj2)
    · rw [interpSearch_fallback points x s k hlen,
        interpSearch_fallback points x s i (by omega)]

theorem interpSearch_reach (points : List (ℚ × ℚ)) (x : ℚ) (s : Bool) (i k : ℕ)
    (hk : k ≤ i) (hfail : ∀ j, k ≤ j → j < i → ¬ bracketAt points x j) :
    interpSearch points x s k = interpSearch points x s i :=
  interpSearch_reach_aux points x s i (i - k) k le_rfl hk hfail

theorem interpSearch_all_fail (points : List (ℚ × ℚ)) (x : ℚ) (s : Bool)
    (hfail : ∀ j, j < points.length - 1 → ¬ bracketAt points x j) :
    interpSearch points x s 0 = searchFallback points x := by
  rw [interpSearch_reach points x s (points.length - 1) 0 (Nat.zero_le _)
    (fun j _ hj => hfail j hj)]
  exact interpSearch_fallback points x s _ (lt_irrefl _)

/-- Adjacent monotonicity of the x-coordinates extends to arbitrary index pairs. -/
theorem getD_fst_mono_aux (points : List (ℚ × ℚ))
    (hadj : ∀ j, j + 1 < points.length →
      (points.getD j (0, 0)).1 ≤ (points.getD (j + 1) (0, 0)).1) :
    ∀ n j k, k - j ≤ n → j ≤ k → k < points.length →
      (points.getD j (0, 0)).1 ≤ (points.getD k (0, 0)).1 := by
  intro n
  induction n with
  | zero =>
    intro j k hn hjk _
    have : j = k := by omega
    rw [this]
  | succ n ih =>
    intro j k hn hjk hk
    rcases Nat.eq_or_lt_of_le hjk with heq | hjlt
    · rw [heq]
    exact le_trans (hadj j (by omega)) (ih (j + 1) k (by omega) (by omega) hk)

theorem getD_fst_mono (points : List (ℚ × ℚ))
    (hadj : ∀ j, j + 1 < points.length →
      (points.getD j (0, 0)).1 ≤ (points.getD (j + 1) (0, 0)).1)
    (j k : ℕ) (hjk : j ≤ k) (hk : k < points.length) :
    (points.getD j (0, 0)).1 ≤ (points.getD k (0, 0)).1 :=
  getD_fst_mono_aux points hadj (k - j) j k le_rfl hjk hk

/-! ### C7: edge cases of the control-point interpolation -/

/-- C7: The control-point interpolation: with zero points it is the
identity; with one point it is constant at the y of that point; a query left of
the first point returns the first y and a query right of the last point
returns the last y (flat extrapolation); and the first bracketing segment
with x-extent below the 1e-10 threshold yields the average of its two
endpoint y values. -/
theorem c7_interpolation_edge_cases (points : List (ℚ × ℚ)) (x : ℚ) (smooth : Bool)
    (hadj : ∀ j, j + 1 < points.length →
      (points.getD j (0, 0)).1 ≤ (points.getD (j + 1) (0, 0)).1) :
    (interpolate_at_point [] x smooth = x) ∧
    (∀ p : ℚ × ℚ, interpolate_at_point [p] x smooth = p.2) ∧
    (points ≠ [] → x < (points.getD 0 (0, 0)).1 →
      interpolate_at_point points x smooth = (points.getD 0 (0, 0)).2) ∧
    (points ≠ [] → (points.getD (points.length - 1) (0, 0)).1 < x →
      interpolate_at_point points x smooth =
        (points.getD (points.length - 1) (0, 0)).2) ∧
    (∀ i, i + 1 < points.length →
      (points.getD i (0, 0)).1 ≤ x → x ≤ (points.getD (i + 1) (0, 0)).1 →
      (∀ j, j < i → (points.getD (j + 1) (0, 0)).1 < x) →
      |(points.getD (i + 1) (0, 0)).1 - (points.getD i (0, 0)).1| < eps →
      interpolate_at_point points x smooth =
        ((points.getD i (0, 0)).2 + (points.getD (i + 1) (0, 0)).2) * (1 / 2)) := by
  refine ⟨by simp [interpolate_at_point], ?_, ?_, ?_, ?_⟩
  · intro p
    simp [interpolate_at_point]
  · intro hne hlt
    have hEmpty : points.isEmpty = false := by
      cases points with
      | nil => exact absurd rfl hne
      | cons a t => rfl
    by_cases h1 : points.length = 1
    · simp only [interpolate_at_point, hEmpty, Bool.false_eq_true, if_false, if_pos h1]
    · simp only [interpolate_at_point, hEmpty, Bool.false_eq_true, if_false, if_neg h1]
      have hfail : ∀ j, j < points.length - 1 → ¬ bracketAt points x j := by
        intro j hj hb
        exact absurd (lt_of_lt_of_le hlt
          (getD_fst_mono points hadj 0 j (Nat.zero_le j) (by omega))) (not_lt.mpr hb.1)
      rw [interpSearch_all_fail points x smooth hfail]
      simp only [searchFallback]
      rw [if_pos (le_of_lt hlt)]
  · intro hne hgt
    have hEmpty : points.isEmpty = false := by
      cases points with
      | nil => exact absurd rfl hne
      | cons a t => rfl
    have hlen0 : points.length ≠ 0 := by
      simpa [List.length_eq_zero] using hne
    by_cases h1 : points.length = 1
    · simp only [interpolate_at_point, hEmpty, Bool.false_eq_true, if_false, if_pos h1, h1]
      simp
    · have hlen : 2 ≤ points.length := by omega
      simp only [interpolate_at_point, hEmpty, Bool.false_eq_true, if_false, if_neg h1]
      have hfail : ∀ j, j < points.length - 1 → ¬ bracketAt points x j := by
        intro j hj hb
        exact absurd (lt_of_le_of_lt (le_trans hb.2
          (getD_fst_mono points hadj (j + 1) (points.length - 1) (by omega) (by omega))) hgt)
          (lt_irrefl x)
      rw [interpSearch_all_fail points x smooth hfail]
      simp only [searchFallback]
      rw [if_neg (not_le.mpr (lt_of_le_of_lt
        (getD_fst_mono points hadj 0 (points.length - 1) (Nat.zero_le _) (by omega)) hgt))]
  · intro i hi hx1 hx2 hfirst hdeg
    have hlen1 : points.length ≠ 1 := by omega
    have hne : points ≠ [] := by
      intro h; rw [h] at hi; simp at hi
    have hEmpty : points.isEmpty = false := by
      cases points with
      | nil => exact absurd rfl hne
      | cons a t => rfl
    simp only [interpolate_at_point, hEmpty, Bool.false_eq_true, if_false, if_neg hlen1]
    have hfail : ∀ j, 0 ≤ j → j < i → ¬ bracketAt points x j := by
      intro j _ hj hb
      exact absurd (lt_of_lt_of_le (hfirst j hj) hb.2) (lt_irrefl _)
    rw [interpSearch_reach points x smooth i 0 (Nat.zero_le i) hfail,
      interpSearch_found points x smooth i (by omega) ⟨hx1, hx2⟩]
    simp only [segmentEval]
    rw [if_pos hdeg]

/-- Witness for C7: the identity-on-empty case and a degenerate coincident-x
segment averaging its endpoint y values, at concrete inputs. -/
theorem c7_interpolation_edge_cases_witness :
    interpolate_at_point ([] : List (ℚ × ℚ)) (1/2) false = 1/2 ∧
    interpolate_at_point [((1:ℚ)/2, 0), ((1:ℚ)/2, 1)] (1/2) false = 1/2 := by
  have h := c7_interpolation_edge_cases [((1:ℚ)/2, 0), ((1:ℚ)/2, 1)] (1/2) false
    (by
      intro j hj
      have hj0 : j = 0 := by simp at hj; omega
      subst hj0
      simp [List.getD_cons_zero, List.getD_cons_succ])
  refine ⟨h.1, ?_⟩
  have hdeg := h.2.2.2.2 0 (by simp)
    (by simp [List.getD_cons_zero])
    (by simp [List.getD_cons_zero, List.getD_cons_succ])
    (fun j hj => absurd hj (Nat.not_lt_zero j))
    (by
      simp only [List.getD_cons_zero, List.getD_cons_succ]
      rw [sub_self, abs_zero, eps]
      norm_num)
  rw [hdeg]
  norm_num [List.getD_cons_zero, List.getD_cons_succ]

theorem eps_pos : (0 : ℚ) < eps := by rw [eps]; norm_num

/-- C6: In smooth (Hermite) mode, over points sorted by x with all
adjacent gaps at least the degeneracy threshold, the value on the bracketing
segment is cubic Hermite interpolation whose tangents are the spec tangents
(segment-slope average at interior points, single-segment slope at
endpoints), clamped to [0, 1]. -/
theorem c6_hermite_segment (points : List (ℚ × ℚ)) (x : ℚ) (i : ℕ)
    (hgap : ∀ j, j + 1 < points.length →
      eps ≤ (points.getD (j + 1) (0, 0)).1 - (points.getD j (0, 0)).1)
    (hi : i + 1 < points.length)
    (hx1 : (points.getD i (0, 0)).1 ≤ x)
    (hx2 : x ≤ (points.getD (i + 1) (0, 0)).1)
    (hfirst : ∀ j, j < i → (points.getD (j + 1) (0, 0)).1 < x) :
    interpolate_at_point points x true =
      clampQ 0 1 (hermite_interp
        ((x - (points.getD i (0, 0)).1) /
          ((points.getD (i + 1) (0, 0)).1 - (points.getD i (0, 0)).1))
        (points.getD i (0, 0)).2 (points.getD (i + 1) (0, 0)).2
        (specTangent points i) (specTangent points (i + 1))
        ((points.getD (i + 1) (0, 0)).1 - (points.getD i (0, 0)).1)) := by
  have hlen1 : points.length ≠ 1 := by omega
  have hne : points ≠ [] := by
    intro h; rw [h] at hi; simp at hi
  have hEmpty : points.isEmpty = false := by
    cases points with
    | nil => exact absurd rfl hne
    | cons a t => rfl
  simp only [interpolate_at_point, hEmpty, Bool.false_eq_true, if_false, if_neg hlen1]
  have hfail : ∀ j, 0 ≤ j → j < i → ¬ bracketAt points x j := by
    intro j _ hj hb
    exact absurd (lt_of_lt_of_le (hfirst j hj) hb.2) (lt_irrefl _)
  rw [interpSearch_reach points x true i 0 (Nat.zero_le i) hfail,
    interpSearch_found points x true i (by omega) ⟨hx1, hx2⟩]
  have hdx : eps ≤ (points.getD (i + 1) (0, 0)).1 - (points.getD i (0, 0)).1 :=
    hgap i hi
  have hnd : ¬ |(points.getD (i + 1) (0, 0)).1 - (points.getD i (0, 0)).1| < eps := by
    rw [abs_of_nonneg (le_trans (le_of_lt eps_pos) hdx)]
    exact not_lt.mpr hdx
  simp only [segmentEval]
  rw [if_neg hnd]
  simp only [if_true]
  by_cases h0 : i = 0
  · subst h0
    by_cases h2 : 0 = points.length - 2
    · rw [if_pos rfl, if_pos h2]
      have hL : points.length - 1 = 1 := by omega
      simp only [specTangent, segSlope, if_pos rfl, hL]
      norm_num
    · rw [if_pos rfl, if_neg h2]
      have hlast : (1 : ℕ) ≠ points.length - 1 := by omega
      have hgap2 : eps ≤ (points.getD 2 (0, 0)).1 - (points.getD 1 (0, 0)).1 :=
        hgap 1 (by omega)
      simp only [specTangent, segSlope, if_pos rfl, if_neg one_ne_zero, if_neg hlast]
      rw [max_eq_left hgap2]
      norm_num
      ring
  · rw [if_neg h0]
    have hsub : i - 1 + 1 = i := by omega
    have hgap0 : eps ≤ (points.getD i (0, 0)).1 - (points.getD (i - 1) (0, 0)).1 := by
      have := hgap (i - 1) (by omega)
      rwa [hsub] at this
    have hilast : i ≠ points.length - 1 := by omega
    by_cases h2 : i = points.length - 2
    · rw [if_pos h2]
      have hnext : i + 1 = points.length - 1 := by omega
      simp only [specTangent, segSlope, if_neg h0, if_neg hilast, hsub,
        if_neg (Nat.succ_ne_zero i), if_pos hnext, Nat.add_sub_cancel]
      rw [max_eq_left hgap0]
      ring
    · rw [if_neg h2]
      have hnext0 : i + 1 ≠ 0 := Nat.succ_ne_zero i
      have hnextlast : i + 1 ≠ points.length - 1 := by omega
      have hgap2 : eps ≤ (points.getD (i + 2) (0, 0)).1 - (points.getD (i + 1) (0, 0)).1 :=
        hgap (i + 1) (by omega)
      simp only [specTangent, segSlope, if_neg h0, if_neg hilast, hsub,
        if_neg hnext0, if_neg hnextlast, Nat.add_sub_cancel]
      rw [max_eq_left hgap0, max_eq_left hgap2]
      ring

/-- Witness for C6: the single-segment smooth curve through (0,0) and (1,1)
evaluated at 1/2 equals the Hermite value with endpoint-slope tangents. -/
theorem c6_hermite_segment_witness :
    interpolate_at_point [((0:ℚ), (0:ℚ)), ((1:ℚ), (1:ℚ))] (1/2) true =
      clampQ 0 1 (hermite_interp
        (((1:ℚ)/2 - 0) / (1 - 0)) 0 1
        (specTangent [((0:ℚ), (0:ℚ)), ((1:ℚ), (1:ℚ))] 0)
        (specTangent [((0:ℚ), (0:ℚ)), ((1:ℚ), (1:ℚ))] 1)
        (1 - 0)) := by
  have h := c6_hermite_segment [((0:ℚ), (0:ℚ)), ((1:ℚ), (1:ℚ))] (1/2) 0
    (by
      intro j hj
      have hj0 : j = 0 := by simp at hj; omega
      subst hj0
      simp only [List.getD_cons_zero, List.getD_cons_succ]
      rw [eps]; norm_num)
    (by simp)
    (by norm_num [List.getD_cons_zero])
    (by norm_num [List.getD_cons_zero, List.getD_cons_succ])
    (fun j hj => absurd hj (Nat.not_lt_zero j))
  simpa [List.getD_cons_zero, List.getD_cons_succ] using h

/-! ### C5: totality and range of the evaluator -/

theorem clampQ_bounds (lo hi x : ℚ) (h : lo ≤ hi) :
    lo ≤ clampQ lo hi x ∧ clampQ lo hi x ≤ hi :=
  ⟨le_min (le_max_right x lo) h, min_le_right _ _⟩

theorem getD_snd_bounds (points : List (ℚ × ℚ))
    (hy : ∀ q ∈ points, 0 ≤ q.2 ∧ q.2 ≤ 1) (n : ℕ) :
    0 ≤ (points.getD n (0, 0)).2 ∧ (points.getD n (0, 0)).2 ≤ 1 := by
  by_cases hn : n < points.length
  · rw [List.getD_eq_getElem points (0, 0) hn]
    exact hy _ (List.getElem_mem hn)
  · rw [List.getD_eq_default points (0, 0) (by omega)]
    norm_num

theorem segmentEval_bounds (points : List (ℚ × ℚ)) (x : ℚ) (s : Bool) (i : ℕ)
    (hy : ∀ q ∈ points, 0 ≤ q.2 ∧ q.2 ≤ 1) (hb : bracketAt points x i) :
    0 ≤ segmentEval points x s i ∧ segmentEval points x s i ≤ 1 := by
  obtain ⟨hy1, hy1'⟩ := getD_snd_bounds points hy i
  obtain ⟨hy2, hy2'⟩ := getD_snd_bounds points hy (i + 1)
  simp only [segmentEval]
  by_cases hdeg : |(points.getD (i + 1) (0, 0)).1 - (points.getD i (0, 0)).1| < eps
  · rw [if_pos hdeg]
    constructor <;> nlinarith
  · rw [if_neg hdeg]
    have hdxnn : 0 ≤ (points.getD (i + 1) (0, 0)).1 - (points.getD i (0, 0)).1 :=
      sub_nonneg.mpr (le_trans hb.1 hb.2)
    have hdxpos : 0 < (points.getD (i + 1) (0, 0)).1 - (points.getD i (0, 0)).1 := by
      rcases lt_or_eq_of_le hdxnn with h | h
      · exact h
      · exact absurd (by rw [← h, abs_zero]; exact eps_pos) hdeg
    have ht0 : 0 ≤ (x - (points.getD i (0, 0)).1) /
        ((points.getD (i + 1) (0, 0)).1 - (points.getD i (0, 0)).1) :=
      div_nonneg (sub_nonneg.mpr hb.1) hdxnn
    have ht1 : (x - (points.getD i (0, 0)).1) /
        ((points.getD (i + 1) (0, 0)).1 - (points.getD i (0, 0)).1) ≤ 1 :=
      (div_le_one hdxpos).mpr (by linarith [hb.2])
    cases s with
    | true =>
      simp only [if_true]
      exact clampQ_bounds 0 1 _ (by norm_num)
    | false =>
      simp only [Bool.false_eq_true, if_false, linear_interp]
      constructor <;> nlinarith

theorem interpSearch_bounds_aux (points : List (ℚ × ℚ)) (x : ℚ) (s : Bool)
    (hy : ∀ q ∈ points, 0 ≤ q.2 ∧ q.2 ≤ 1) :
    ∀ n i, points.length - 1 - i ≤ n →
      0 ≤ interpSearch points x s i ∧ interpSearch points x s i ≤ 1 := by
  have hfb : 0 ≤ searchFallback points x ∧ searchFallback points x ≤ 1 := by
    simp only [searchFallback]
    by_cases h : x ≤ (points.getD 0 (0, 0)).1
    · rw [if_pos h]; exact getD_snd_bounds points hy 0
    · rw [if_neg h]; exact getD_snd_bounds points hy _
  intro n
  induction n with
  | zero =>
    intro i hn
    rw [interpSearch_fallback points x s i (by omega)]
    exact hfb
  | succ n ih =>
    intro i hn
    by_cases hlen : i < points.length - 1
    · by_cases hb : bracketAt points x i
      · rw [interpSearch_found points x s i hlen hb]
        exact segmentEval_bounds points x s i hy hb
      · rw [interpSearch_skip points x s i hlen hb]
        exact ih (i + 1) (by omega)
    · rw [interpSearch_fallback points x s i hlen]
      exact hfb

theorem interpolate_at_point_bounds (points : List (ℚ × ℚ)) (x : ℚ) (s : Bool)
    (hy : ∀ q ∈ points, 0 ≤ q.2 ∧ q.2 ≤ 1) (hx0 : 0 ≤ x) (hx1 : x ≤ 1) :
    0 ≤ interpolate_at_point points x s ∧ interpolate_at_point points x s ≤ 1 := by
  simp only [interpolate_at_point]
  by_cases he : points.isEmpty
  · rw [if_pos he]; exact ⟨hx0, hx1⟩
  · rw [if_neg he]
    by_cases h1 : points.length = 1
    · rw [if_pos h1]; exact getD_snd_bounds points hy 0
    · rw [if_neg h1]
      exact interpSearch_bounds_aux points x s hy (points.length - 1) 0 (by omega)

theorem lut_lookup_bounds (x : ℚ) (lut : ℕ → ℚ)
    (hl : ∀ n, n ≤ LUT_SIZE - 1 → 0 ≤ lut n ∧ lut n ≤ 1) :
    0 ≤ lut_lookup x lut ∧ lut_lookup x lut ≤ 1 := by
  simp only [lut_lookup]
  set xc := clampQ 0 1 x with hxc
  obtain ⟨hxc0, hxc1⟩ := clampQ_bounds 0 1 x (by norm_num)
  rw [← hxc] at hxc0 hxc1
  set indexF := xc * (LUT_SIZE - 1 : ℕ) with hiF
  have hiF0 : 0 ≤ indexF := by
    rw [hiF]
    exact mul_nonneg hxc0 (by positivity)
  set index := (⌊indexF⌋).toNat with hidx
  by_cases hge : LUT_SIZE - 1 ≤ index
  · rw [if_pos hge]
    exact hl _ le_rfl
  · rw [if_neg hge]
    have hidxle : index ≤ LUT_SIZE - 1 := by omega
    have hcast : ((index : ℕ) : ℚ) = ((⌊indexF⌋ : ℤ) : ℚ) := by
      rw [hidx]
      exact_mod_cast congrArg (fun z : ℤ => (z : ℚ))
        (Int.toNat_of_nonneg (Int.floor_nonneg.mpr hiF0))
    have hfl : ((⌊indexF⌋ : ℤ) : ℚ) ≤ indexF := Int.floor_le indexF
    have hfl2 : indexF < ((⌊indexF⌋ : ℤ) : ℚ) + 1 := Int.lt_floor_add_one indexF
    have hfr0 : 0 ≤ indexF - (index : ℚ) := by rw [hcast]; linarith
    have hfr1 : indexF - (index : ℚ) ≤ 1 := by rw [hcast]; linarith
    obtain ⟨h00, h01⟩ := hl index hidxle
    obtain ⟨h10, h11⟩ := hl (index + 1) (by omega)
    constructor <;> nlinarith

/-- C5: For every curve (Linear or Custom, any control points with
coordinates in [0,1] x [0,1], any smoothing flag), all dead zones in [0,1]
and every raw input in [0,1], the compiled evaluator is total and its result
lies in [0,1]. -/
theorem c5_output_range (ct : ResponseCurve) (p : CurveParams)
    (inner outer raw : ℚ)
    (hraw0 : 0 ≤ raw) (hraw1 : raw ≤ 1)
    (hin0 : 0 ≤ inner) (hin1 : inner ≤ 1)
    (hout0 : 0 ≤ outer) (hout1 : outer ≤ 1)
    (hp : ∀ q ∈ p.custom_points, 0 ≤ q.1 ∧ q.1 ≤ 1 ∧ 0 ≤ q.2 ∧ q.2 ≤ 1) :
    0 ≤ (UnifiedCurve.new ct p inner outer).process_input raw ∧
      (UnifiedCurve.new ct p inner outer).process_input raw ≤ 1 := by
  have hy : ∀ q ∈ p.custom_points.insertionSort (fun a b => a.1 ≤ b.1),
      0 ≤ q.2 ∧ q.2 ≤ 1 := by
    intro q hq
    have hq' : q ∈ p.custom_points := (List.mem_insertionSort _).mp hq
    exact ⟨(hp q hq').2.2.1, (hp q hq').2.2.2⟩
  simp only [UnifiedCurve.process_input, UnifiedCurve.new]
  by_cases hlt : raw < inner
  · rw [if_pos hlt]
    norm_num
  · rw [if_neg hlt]
    have hclamp0 : 0 ≤ min raw outer := le_min hraw0 hout0
    have hclamp1 : min raw outer ≤ 1 := le_trans (min_le_left _ _) hraw1
    have hnorm : 0 ≤ (if inner < outer then
          (min raw outer - inner) / (outer - inner) else min raw outer) ∧
        (if inner < outer then
          (min raw outer - inner) / (outer - inner) else min raw outer) ≤ 1 := by
      by_cases hio : inner < outer
      · rw [if_pos hio]
        have hpos : 0 < outer - inner := sub_pos.mpr hio
        constructor
        · apply div_nonneg _ (le_of_lt hpos)
          have : inner ≤ min raw outer := le_min (not_lt.mp hlt) (le_of_lt hio)
          linarith
        · rw [div_le_one hpos]
          have : min raw outer ≤ outer := min_le_right _ _
          linarith
      · rw [if_neg hio]
        exact ⟨hclamp0, hclamp1⟩
    simp only [UnifiedCurve.apply_curve]
    cases ct with
    | Linear => exact hnorm
    | Custom =>
      by_cases hne : (p.custom_points.insertionSort (fun a b => a.1 ≤ b.1)).isEmpty
      · have hcond : ¬ (ResponseCurve.Custom = ResponseCurve.Custom ∧
            ¬ (p.custom_points.insertionSort (fun a b => a.1 ≤ b.1)).isEmpty = true) := by
          simp [hne]
        rw [if_neg hcond]
        exact hnorm
      · have hcond : ResponseCurve.Custom = ResponseCurve.Custom ∧
            ¬ (p.custom_points.insertionSort (fun a b => a.1 ≤ b.1)).isEmpty = true :=
          ⟨rfl, by simpa using hne⟩
        rw [if_pos hcond]
        apply lut_lookup_bounds
        intro n hn
        apply interpolate_at_point_bounds _ _ _ hy
        · positivity
        · rw [div_le_one (by norm_num [LUT_SIZE])]
          rw [LUT_SIZE] at hn ⊢
          push_cast
          norm_num at hn ⊢
          exact_mod_cast hn

/-- Witness for C5: a smooth two-point custom curve with dead zones
0.1 / 0.9 evaluated at raw 0.5 stays within [0,1]. -/
theorem c5_output_range_witness :
    0 ≤ (UnifiedCurve.new ResponseCurve.Custom
        ⟨true, [((0:ℚ), (0:ℚ)), ((1:ℚ), (1:ℚ))]⟩ (1/10) (9/10)).process_input (1/2) ∧
      (UnifiedCurve.new ResponseCurve.Custom
        ⟨true, [((0:ℚ), (0:ℚ)), ((1:ℚ), (1:ℚ))]⟩ (1/10) (9/10)).process_input (1/2) ≤ 1 :=
  c5_output_range ResponseCurve.Custom ⟨true, [((0:ℚ), (0:ℚ)), ((1:ℚ), (1:ℚ))]⟩
    (1/10) (9/10) (1/2) (by norm_num) (by norm_num) (by norm_num) (by norm_num)
    (by norm_num) (by norm_num)
    (by
      intro q hq
      simp only [List.mem_cons, List.not_mem_nil, or_false] at hq
      rcases hq with h | h <;> (subst h; norm_num))

/-! ### C8: LUT construction and sample-point agreement -/

/-- Looking up the LUT exactly at a sample point `i / 255` returns table
entry `i`: the index computation is exact and the interpolation fraction
vanishes. -/
theorem lut_lookup_sample (f : ℕ → ℚ) (i : ℕ) (hi : i ≤ LUT_SIZE - 1) :
    lut_lookup ((i : ℚ) / (LUT_SIZE - 1 : ℕ)) f = f i := by
  have hi' : i ≤ 255 := by simpa [LUT_SIZE] using hi
  have h255 : ((LUT_SIZE - 1 : ℕ) : ℚ) = 255 := by norm_num [LUT_SIZE]
  simp only [lut_lookup, clampQ, h255]
  have hx0 : (0 : ℚ) ≤ (i : ℚ) / 255 := by positivity
  have hx1 : (i : ℚ) / 255 ≤ 1 := by
    rw [div_le_one (by norm_num)]
    exact_mod_cast hi'
  rw [max_eq_left hx0, min_eq_left hx1]
  have hmul : (i : ℚ) / 255 * 255 = (i : ℚ) := by field_simp
  rw [hmul, Int.floor_natCast, Int.toNat_natCast]
  by_cases h : LUT_SIZE - 1 ≤ i
  · rw [if_pos h]
    have : i = LUT_SIZE - 1 := le_antisymm hi h
    rw [this]
  · rw [if_neg h]
    simp

/-- C8: For a Custom curve with non-empty points, construction builds a
256-entry LUT sampling the control-point interpolation at the 256 evenly
spaced inputs `k / 255`, and evaluating the compiled curve at a sample point
`i / 255` equals the direct control-point interpolation (over the sorted
points) at that input. -/
theorem c8_lut_sample_agreement (p : CurveParams) (inner outer : ℚ)
    (hne : p.custom_points ≠ []) (i : ℕ) (hi : i ≤ LUT_SIZE - 1) :
    (UnifiedCurve.new ResponseCurve.Custom p inner outer).lut =
      some (fun k : ℕ =>
        interpolate_at_point
          (p.custom_points.insertionSort (fun a b => a.1 ≤ b.1))
          ((k : ℚ) / (LUT_SIZE - 1 : ℕ)) p.use_smooth_interpolation) ∧
    (UnifiedCurve.new ResponseCurve.Custom p inner outer).apply_curve
        ((i : ℚ) / (LUT_SIZE - 1 : ℕ)) =
      interpolate_at_point
        (p.custom_points.insertionSort (fun a b => a.1 ≤ b.1))
        ((i : ℚ) / (LUT_SIZE - 1 : ℕ)) p.use_smooth_interpolation := by
  have hsne : ¬ (p.custom_points.insertionSort (fun a b => a.1 ≤ b.1)).isEmpty = true := by
    rw [List.isEmpty_iff]
    intro hnil
    have hperm := List.perm_insertionSort (fun a b : ℚ × ℚ => a.1 ≤ b.1) p.custom_points
    rw [hnil] at hperm
    exact hne hperm.symm.eq_nil
  have hcond : ResponseCurve.Custom = ResponseCurve.Custom ∧
      ¬ (p.custom_points.insertionSort (fun a b => a.1 ≤ b.1)).isEmpty = true :=
    ⟨rfl, hsne⟩
  have hlut : (UnifiedCurve.new ResponseCurve.Custom p inner outer).lut =
      some (fun k : ℕ =>
        interpolate_at_point
          (p.custom_points.insertionSort (fun a b => a.1 ≤ b.1))
          ((k : ℚ) / (LUT_SIZE - 1 : ℕ)) p.use_smooth_interpolation) := by
    show (if ResponseCurve.Custom = ResponseCurve.Custom ∧
        ¬ (p.custom_points.insertionSort (fun a b => a.1 ≤ b.1)).isEmpty = true then
        some (fun k : ℕ =>
          interpolate_at_point
            (p.custom_points.insertionSort (fun a b => a.1 ≤ b.1))
            ((k : ℚ) / (LUT_SIZE - 1 : ℕ)) p.use_smooth_interpolation)
      else none) = _
    rw [if_pos hcond]
  refine ⟨hlut, ?_⟩
  show (UnifiedCurve.new ResponseCurve.Custom p inner outer).apply_curve _ = _
  simp only [UnifiedCurve.apply_curve]
  rw [hlut]
  exact lut_lookup_sample _ i hi

/-- Witness for C8: a two-point Custom curve at sample index 128. -/
theorem c8_lut_sample_agreement_witness :
    (UnifiedCurve.new ResponseCurve.Custom
        ⟨false, [((0:ℚ), (0:ℚ)), ((1:ℚ), (1:ℚ))]⟩ 0 1).lut =
      some (fun k : ℕ =>
        interpolate_at_point
          ([((0:ℚ), (0:ℚ)), ((1:ℚ), (1:ℚ))].insertionSort (fun a b => a.1 ≤ b.1))
          ((k : ℚ) / (LUT_SIZE - 1 : ℕ)) false) ∧
    (UnifiedCurve.new ResponseCurve.Custom
        ⟨false, [((0:ℚ), (0:ℚ)), ((1:ℚ), (1:ℚ))]⟩ 0 1).apply_curve
        ((128 : ℚ) / (LUT_SIZE - 1 : ℕ)) =
      interpolate_at_point
        ([((0:ℚ), (0:ℚ)), ((1:ℚ), (1:ℚ))].insertionSort (fun a b => a.1 ≤ b.1))
        ((128 : ℚ) / (LUT_SIZE - 1 : ℕ)) false := by
  have h := c8_lut_sample_agreement ⟨false, [((0:ℚ), (0:ℚ)), ((1:ℚ), (1:ℚ))]⟩ 0 1
    (by simp) 128 (by norm_num [LUT_SIZE])
  exact_mod_cast h

/-! ### C2: compile_profile behaviour -/

theorem foldl_insert_isSome (ms : List KeyMapping) (k : ℕ) :
    ∀ acc : ℕ → Option CompiledMapping,
      ((acc k).isSome = true ∨ ∃ m ∈ ms, m.get_vk_code = k) →
      ((ms.foldl (fun acc m => insertMapping acc m.get_vk_code (compileMapping m))
        acc) k).isSome = true := by
  induction ms with
  | nil =>
    intro acc h
    rcases h with h | ⟨m, hm, _⟩
    · exact h
    · exact absurd hm (List.not_mem_nil m)
  | cons m rest ih =>
    intro acc h
    simp only [List.foldl_cons]
    apply ih
    rcases h with h | ⟨m2, hm2, hk⟩
    · left
      simp only [insertMapping]
      by_cases hq : k = m.get_vk_code
      · rw [if_pos hq]; rfl
      · rw [if_neg hq]; exact h
    · rcases List.mem_cons.mp hm2 with heq | hmem
      · left
        subst heq
        simp only [insertMapping, if_pos hk.symm]
        rfl
      · right
        exact ⟨m2, hmem, hk⟩

/-- C2 counterexample: The claim asserts that a KeyMapping whose key
name resolves to no known platform code leaves no entry in the compiled
table.  On the concrete profile whose only mapping is named "Bogus"
(an unknown name), the compiled table does contain an entry, at the sentinel
code 0. -/
theorem c2_unknown_key_counterexample :
    ((compile_profile bogusProfile "Main").bind
      (fun cp => cp.mappings 0)).isSome = true := by
  rfl

/-- C2 amended: `compile_profile` returns None iff no sub-profile with
the requested name exists; and a KeyMapping whose key name does not resolve
(`key_name_to_vk` = 0) is not absent from the compiled table: it is inserted
under the sentinel code 0. -/
theorem c2_compile_profile_amended (gp : GameProfile) (n : String) :
    (compile_profile gp n = none ↔ ∀ sp ∈ gp.sub_profiles, sp.name ≠ n) ∧
    (∀ sp, gp.sub_profiles.find? (fun s => s.name == n) = some sp →
      ∀ m ∈ sp.mappings, m.get_vk_code = 0 →
      ((compile_profile gp n).bind (fun cp => cp.mappings 0)).isSome = true) := by
  constructor
  · constructor
    · intro hnone sp hsp heq
      simp only [compile_profile] at hnone
      rcases hfind : gp.sub_profiles.find? (fun s => s.name == n) with _ | sp2
      · have := List.find?_eq_none.mp hfind sp hsp
        simp [heq] at this
      · rw [hfind] at hnone
        simp at hnone
    · intro hall
      simp only [compile_profile]
      rcases hfind : gp.sub_profiles.find? (fun s => s.name == n) with _ | sp2
      · rw [hfind]
      · have hmem := List.mem_of_find?_eq_some hfind
        have hname := List.find?_some hfind
        simp at hname
        exact absurd hname (hall sp2 hmem)
  · intro sp hfind m hm hk
    simp only [compile_profile, hfind, Option.bind_some]
    exact foldl_insert_isSome sp.mappings 0 _ (Or.inr ⟨m, hm, hk⟩)

/-- Witness for C2 (amended): the "Nope" lookup fails on the concrete
profile, and the "Bogus"-named mapping of its "Main" sub-profile lands at
code 0. -/
theorem c2_compile_profile_amended_witness :
    compile_profile bogusProfile "Nope" = none ∧
    ((compile_profile bogusProfile "Main").bind
      (fun cp => cp.mappings 0)).isSome = true := by
  constructor
  · exact (c2_compile_profile_amended bogusProfile "Nope").1.mpr (by
      intro sp hsp
      simp only [bogusProfile, List.mem_cons, List.not_mem_nil, or_false] at hsp
      subst hsp
      simp [bogusSubProfile])
  · exact (c2_compile_profile_amended bogusProfile "Main").2 bogusSubProfile
      (by rfl) bogusMapping (by simp [bogusSubProfile]) (by rfl)

/-! ### C1: what a tick transmits -/

/-- C1 counterexample: With the cached profile cleared ("no profile
active") a tick with a successful, non-empty poll transmits nothing and
leaves the shared state untouched, contradicting the claim that every tick
still reads the merged snapshot and transmits the button-only state. -/
theorem c1_no_profile_counterexample :
    (mappingTick true [⟨0x57, 1/2⟩] none AtomicGamepadState.initial).2 = none ∧
    (mappingTick true [⟨0x57, 1/2⟩] none AtomicGamepadState.initial).1 =
      AtomicGamepadState.initial := by
  constructor <;> rfl

/-- C1 amended: When the cached profile is cleared, or the poll fails,
or the poll yields no input, the tick writes nothing to the shared state and
transmits nothing; a tick transmits exactly the full merged snapshot of the
just-updated shared state only when the poll succeeded with a non-empty
buffer and a profile is active. -/
theorem c1_transmission_amended (success : Bool) (buf : List AnalogInput)
    (profile : Option CompiledProfile) (st : AtomicGamepadState) :
    ((profile = none ∨ success = false ∨ buf = []) →
      mappingTick success buf profile st = (st, none)) ∧
    (∀ p, profile = some p → success = true → buf ≠ [] →
      (mappingTick success buf profile st).2 =
        some (mappingTick success buf profile st).1.to_vigem_gamepad) := by
  constructor
  · intro h
    simp only [mappingTick]
    rcases h with h | h | h
    · subst h
      split <;> rfl
    · subst h
      rw [if_neg]
      rintro ⟨h1, _⟩
      exact absurd h1 (by simp)
    · subst h
      rw [if_neg]
      rintro ⟨_, h2⟩
      exact h2 rfl
  · intro p hp hs hb
    subst hp
    simp only [mappingTick]
    rw [if_pos ⟨hs, hb⟩]

/-- Witness for C1 (amended): a failed poll transmits nothing; a successful
non-empty poll with an active profile transmits the updated snapshot. -/
theorem c1_transmission_amended_witness :
    mappingTick false [] none AtomicGamepadState.initial =
      (AtomicGamepadState.initial, none) ∧
    (mappingTick true [⟨0x57, 1/2⟩] (some exampleProfile)
        AtomicGamepadState.initial).2 =
      some (mappingTick true [⟨0x57, 1/2⟩] (some exampleProfile)
        AtomicGamepadState.initial).1.to_vigem_gamepad :=
  ⟨(c1_transmission_amended false [] none AtomicGamepadState.initial).1
      (Or.inl rfl),
   (c1_transmission_amended true [⟨0x57, 1/2⟩] (some exampleProfile)
      AtomicGamepadState.initial).2 exampleProfile rfl rfl (by simp)⟩

theorem accumStep_field (profile : CompiledProfile) (a : Accums)
    (input : AnalogInput) (c : GamepadControl) (hc : isAnalogControl c = true) :
    (accumStep profile a input).field c =
      match profile.mappings input.key_code with
      | some cm =>
        if cm.gamepad_control = c then
          max (cm.process_input input.analog_value) (a.field c)
        else a.field c
      | none => a.field c := by
  rcases hm : profile.mappings input.key_code with _ | cm
  · simp [accumStep, hm]
  · cases hg : cm.gamepad_control <;> cases c <;>
      simp_all [accumStep, isAnalogControl, Accums.field]

theorem contributions_cons (profile : CompiledProfile) (input : AnalogInput)
    (rest : List AnalogInput) (c : GamepadControl) :
    contributions profile (input :: rest) c =
      (match profile.mappings input.key_code with
       | some cm =>
         if cm.gamepad_control = c then
           cm.process_input input.analog_value :: contributions profile rest c
         else contributions profile rest c
       | none => contributions profile rest c) := by
  rcases hm : profile.mappings input.key_code with _ | cm
  · simp [contributions, List.filterMap_cons, hm]
  · by_cases hg : cm.gamepad_control = c
    · simp [contributions, List.filterMap_cons, hm, hg]
    · simp [contributions, List.filterMap_cons, hm, hg]

theorem accumulate_field_aux (profile : CompiledProfile)
    (inputs : List AnalogInput) (c : GamepadControl)
    (hc : isAnalogControl c = true) :
    ∀ a : Accums, (inputs.foldl (accumStep profile) a).field c =
      (contributions profile inputs c).foldl max (a.field c) := by
  induction inputs with
  | nil => intro a; rfl
  | cons input rest ih =>
    intro a
    have hstep := accumStep_field profile a input c hc
    rw [List.foldl_cons, ih (accumStep profile a input), hstep, contributions_cons]
    rcases hm : profile.mappings input.key_code with _ | cm
    · simp only [hm]
    · simp only [hm]
      by_cases hg : cm.gamepad_control = c
      · rw [if_pos hg, if_pos hg, List.foldl_cons, max_comm]
      · rw [if_neg hg, if_neg hg]

theorem initAccums_field (c : GamepadControl) : initAccums.field c = 0 := by
  cases c <;> rfl

theorem accumulate_field (profile : CompiledProfile)
    (inputs : List AnalogInput) (c : GamepadControl)
    (hc : isAnalogControl c = true) :
    (accumulate profile inputs).field c = maxContrib profile inputs c := by
  have h := accumulate_field_aux profile inputs c hc initAccums
  rw [initAccums_field] at h
  exact h

/-- C4: In one tick, the inputs feeding one half-axis or trigger are
combined by maximum (the strongest press wins, never the sum); each signed
stick axis is the positive accumulator minus the negative accumulator,
clamped to [-1, 1]; and concretely, two keys both mapped to LeftStickUp with
processed values 0.3 and 0.7 give a stick-up axis of 0.7, not 1.0. -/
theorem c4_max_aggregation (profile : CompiledProfile)
    (inputs : List AnalogInput) :
    ((accumulate profile inputs).left_y_positive =
      maxContrib profile inputs GamepadControl.LeftStickUp) ∧
    ((accumulate profile inputs).left_y_negative =
      maxContrib profile inputs GamepadControl.LeftStickDown) ∧
    ((accumulate profile inputs).left_x_negative =
      maxContrib profile inputs GamepadControl.LeftStickLeft) ∧
    ((accumulate profile inputs).left_x_positive =
      maxContrib profile inputs GamepadControl.LeftStickRight) ∧
    ((accumulate profile inputs).right_y_positive =
      maxContrib profile inputs GamepadControl.RightStickUp) ∧
    ((accumulate profile inputs).right_y_negative =
      maxContrib profile inputs GamepadControl.RightStickDown) ∧
    ((accumulate profile inputs).right_x_negative =
      maxContrib profile inputs GamepadControl.RightStickLeft) ∧
    ((accumulate profile inputs).right_x_positive =
      maxContrib profile inputs GamepadControl.RightStickRight) ∧
    ((accumulate profile inputs).left_trigger_val =
      maxContrib profile inputs GamepadControl.LeftTrigger) ∧
    ((accumulate profile inputs).right_trigger_val =
      maxContrib profile inputs GamepadControl.RightTrigger) ∧
    ((tickStickAxes (accumulate profile inputs)).1 =
      clampQ (-1) 1 (maxContrib profile inputs GamepadControl.LeftStickRight -
        maxContrib profile inputs GamepadControl.LeftStickLeft)) ∧
    ((tickStickAxes (accumulate profile inputs)).2.1 =
      clampQ (-1) 1 (maxContrib profile inputs GamepadControl.LeftStickUp -
        maxContrib profile inputs GamepadControl.LeftStickDown)) ∧
    ((tickStickAxes (accumulate profile inputs)).2.2.1 =
      clampQ (-1) 1 (maxContrib profile inputs GamepadControl.RightStickRight -
        maxContrib profile inputs GamepadControl.RightStickLeft)) ∧
    ((tickStickAxes (accumulate profile inputs)).2.2.2 =
      clampQ (-1) 1 (maxContrib profile inputs GamepadControl.RightStickUp -
        maxContrib profile inputs GamepadControl.RightStickDown)) ∧
    ((tickStickAxes (accumulate exampleProfile
        [⟨0x57, 3/10⟩, ⟨0x41, 7/10⟩])).2.1 = 7/10) := by
  have h1 := accumulate_field profile inputs GamepadControl.LeftStickUp rfl
  have h2 := accumulate_field profile inputs GamepadControl.LeftStickDown rfl
  have h3 := accumulate_field profile inputs GamepadControl.LeftStickLeft rfl
  have h4 := accumulate_field profile inputs GamepadControl.LeftStickRight rfl
  have h5 := accumulate_field profile inputs GamepadControl.RightStickUp rfl
  have h6 := accumulate_field profile inputs GamepadControl.RightStickDown rfl
  have h7 := accumulate_field profile inputs GamepadControl.RightStickLeft rfl
  have h8 := accumulate_field profile inputs GamepadControl.RightStickRight rfl
  have h9 := accumulate_field profile inputs GamepadControl.LeftTrigger rfl
  have h10 := accumulate_field profile inputs GamepadControl.RightTrigger rfl
  simp only [Accums.field] at h1 h2 h3 h4 h5 h6 h7 h8 h9 h10
  refine ⟨h1, h2, h3, h4, h5, h6, h7, h8, h9, h10, ?_, ?_, ?_, ?_, ?_⟩
  · simp only [tickStickAxes, h3, h4]
  · simp only [tickStickAxes, h1, h2]
  · simp only [tickStickAxes, h7, h8]
  · simp only [tickStickAxes, h5, h6]
  · norm_num [tickStickAxes, accumulate, accumStep, exampleProfile, upMapping,
      isAnalogControl, CompiledMapping.process_input, UnifiedCurve.process_input,
      UnifiedCurve.new, UnifiedCurve.apply_curve, initAccums, clampQ,
      List.foldl_cons, List.foldl_nil]

theorem set_button_mask_testBit_self (s i : ℕ) (p : Bool) (hi : i < 16) :
    (set_button_mask s (2 ^ i) p).testBit i = p := by
  cases p with
  | true =>
    simp only [set_button_mask, if_true, Nat.testBit_or]
    rw [Nat.testBit_two_pow]
    simp
  | false =>
    simp only [set_button_mask, Bool.false_eq_true, if_false, Nat.testBit_and,
      Nat.testBit_xor]
    have h1 : (0xFFFF : ℕ) = 2 ^ 16 - 1 := by norm_num
    rw [h1, Nat.testBit_two_pow_sub_one, Nat.testBit_two_pow]
    simp [hi]

theorem set_button_mask_testBit_other (s i : ℕ) (p : Bool) (j : ℕ)
    (hj : j < 16) (hne : j ≠ i) :
    (set_button_mask s (2 ^ i) p).testBit j = s.testBit j := by
  cases p with
  | true =>
    simp only [set_button_mask, if_true, Nat.testBit_or]
    rw [Nat.testBit_two_pow]
    simp [Ne.symm hne]
  | false =>
    simp only [set_button_mask, Bool.false_eq_true, if_false, Nat.testBit_and,
      Nat.testBit_xor]
    have h1 : (0xFFFF : ℕ) = 2 ^ 16 - 1 := by norm_num
    rw [h1, Nat.testBit_two_pow_sub_one, Nat.testBit_two_pow]
    simp [hj, Ne.symm hne]

theorem runButtonOps_cons (op : ℕ × Bool) (rest : List (ℕ × Bool)) (init : ℕ) :
    runButtonOps (op :: rest) init =
      runButtonOps rest (set_button_mask init (2 ^ op.1) op.2) := rfl

theorem runButtonOps_preserve (ops : List (ℕ × Bool)) (j : ℕ) (hj : j < 16)
    (hops : ∀ op ∈ ops, op.1 ≠ j) :
    ∀ init, (runButtonOps ops init).testBit j = init.testBit j := by
  induction ops with
  | nil => intro init; rfl
  | cons op rest ih =>
    intro init
    rw [runButtonOps_cons,
      ih (fun o ho => hops o (List.mem_cons_of_mem op ho)),
      set_button_mask_testBit_other init op.1 op.2 j hj
        (Ne.symm (hops op (List.mem_cons_self op rest)))]

/-- C9: Any interleaving of concurrent `set_button` calls on pairwise
distinct bits loses no update: afterwards the bit of each call holds exactly its
written value, every untouched bit is unchanged, and a single call changes
only its own bit. -/
theorem c9_disjoint_set_button (ops : List (ℕ × Bool)) (init : ℕ)
    (hlt : ∀ op ∈ ops, op.1 < 16)
    (hdisj : ops.Pairwise (fun a b => a.1 ≠ b.1)) :
    (∀ op ∈ ops, (runButtonOps ops init).testBit op.1 = op.2) ∧
    (∀ j, j < 16 → (∀ op ∈ ops, op.1 ≠ j) →
      (runButtonOps ops init).testBit j = init.testBit j) ∧
    (∀ s i p j, i < 16 → j < 16 → j ≠ i →
      (set_button_mask s (2 ^ i) p).testBit j = s.testBit j ∧
      (set_button_mask s (2 ^ i) p).testBit i = p) := by
  refine ⟨?_, ?_, ?_⟩
  · induction ops generalizing init with
    | nil =>
      intro op hop
      exact absurd hop (List.not_mem_nil op)
    | cons op0 rest ih =>
      intro op hop
      rcases List.mem_cons.mp hop with heq | hmem
      · subst heq
        rw [runButtonOps_cons,
          runButtonOps_preserve rest op.1 (hlt op hop)
            (fun o ho => (List.rel_of_pairwise_cons hdisj ho).symm),
          set_button_mask_testBit_self init op.1 op.2 (hlt op hop)]
      · rw [runButtonOps_cons]
        exact ih _ (fun o ho => hlt o (List.mem_cons_of_mem op0 ho))
          (List.Pairwise.of_cons hdisj) op hmem
  · intro j hj hops
    exact runButtonOps_preserve ops j hj hops init
  · intro s i p j hi hj hne
    exact ⟨set_button_mask_testBit_other s i p j hj hne,
      set_button_mask_testBit_self s i p hi⟩

/-- Witness for C9: setting bit 0 and clearing bit 2, starting from bitmask
4 (only bit 2 set), in that order: bit 0 ends set, bit 2 ends cleared,
bit 1 is untouched. -/
theorem c9_disjoint_set_button_witness :
    (runButtonOps [(0, true), (2, false)] 4).testBit 0 = true ∧
    (runButtonOps [(0, true), (2, false)] 4).testBit 2 = false ∧
    (runButtonOps [(0, true), (2, false)] 4).testBit 1 = (4 : ℕ).testBit 1 := by
  have h := c9_disjoint_set_button [(0, true), (2, false)] 4
    (by
      intro op hop
      simp only [List.mem_cons, List.not_mem_nil, or_false] at hop
      rcases hop with h | h <;> (subst h; norm_num))
    (by
      constructor
      · intro b hb
        simp only [List.mem_cons, List.not_mem_nil, or_false] at hb
        subst hb
        norm_num
      · exact List.pairwise_singleton _ _)
  refine ⟨?_, ?_, ?_⟩
  · exact h.1 (0, true) (by simp)
  · exact h.1 (2, false) (by simp)
  · exact h.2.1 1 (by norm_num) (by
      intro op hop
      simp only [List.mem_cons, List.not_mem_nil, or_false] at hop
      rcases hop with hh | hh <;> (subst hh; norm_num))

/-! ### C10: the suppression counter never underflows -/

theorem foldl_hotkey_le (ops : List HotkeyOp) :
    ∀ c, ops.foldl applyHotkeyOp c ≤ c + countSuspend ops := by
  induction ops with
  | nil => intro c; simp [countSuspend]
  | cons op rest ih =>
    intro c
    cases op with
    | suspend =>
      rw [List.foldl_cons]
      calc rest.foldl applyHotkeyOp (applyHotkeyOp c HotkeyOp.suspend)
          ≤ applyHotkeyOp c HotkeyOp.suspend + countSuspend rest := ih _
        _ = c + countSuspend (HotkeyOp.suspend :: rest) := by
            simp [applyHotkeyOp, suspend_hotkeys, countSuspend]
            omega
    | resume =>
      rw [List.foldl_cons]
      calc rest.foldl applyHotkeyOp (applyHotkeyOp c HotkeyOp.resume)
          ≤ applyHotkeyOp c HotkeyOp.resume + countSuspend rest := ih _
        _ ≤ c + countSuspend (HotkeyOp.resume :: rest) := by
            simp only [applyHotkeyOp, resume_hotkeys, countSuspend]
            split <;> omega

theorem foldl_hotkey_balanced (ops : List HotkeyOp) :
    ∀ c, (∀ n, countResume (ops.take n) ≤ c + countSuspend (ops.take n)) →
      ops.foldl applyHotkeyOp c = c + countSuspend ops - countResume ops := by
  induction ops with
  | nil =>
    intro c _
    simp [countSuspend, countResume]
  | cons op rest ih =>
    intro c hpre
    have hrestR : countResume rest ≤ c + countSuspend (op :: rest) := by
      have := hpre (rest.length + 1)
      rw [List.take_of_length_le (by simp)] at this
      cases op with
      | suspend => simpa [countResume, countSuspend] using this
      | resume => simp only [countResume, countSuspend] at this ⊢; omega
    cases op with
    | suspend =>
      rw [List.foldl_cons]
      have hpre2 : ∀ n, countResume (rest.take n) ≤
          (c + 1) + countSuspend (rest.take n) := by
        intro n
        have := hpre (n + 1)
        simp only [List.take_succ_cons, countResume, countSuspend] at this
        omega
      rw [show applyHotkeyOp c HotkeyOp.suspend = c + 1 from rfl, ih (c + 1) hpre2]
      simp only [countSuspend, countResume] at hrestR ⊢
      omega
    | resume =>
      have hc : 0 < c := by
        have := hpre 1
        simp [countResume, countSuspend] at this
        omega
      rw [List.foldl_cons]
      have hpre2 : ∀ n, countResume (rest.take n) ≤
          (c - 1) + countSuspend (rest.take n) := by
        intro n
        have := hpre (n + 1)
        simp only [List.take_succ_cons, countResume, countSuspend] at this
        omega
      have happ : applyHotkeyOp c HotkeyOp.resume = c - 1 := by
        simp [applyHotkeyOp, resume_hotkeys, hc]
      rw [happ, ih (c - 1) hpre2]
      simp only [countSuspend, countResume] at hrestR ⊢
      omega

/-- C10: The suppression counter never goes below zero: suspend adds one,
resume subtracts one only when the counter is positive and is a no-op at
zero (so any sequence of calls stays bounded by the number of suspends, a
well-nested sequence with equally many suspends and resumes returns the
counter to zero, and excess resumes cannot underflow or wrap); and while
the counter is positive a matching hotkey press invokes no registered
callback. -/
theorem c10_suppression_counter :
    (∀ c, suspend_hotkeys c = c + 1) ∧
    (∀ c, 0 < c → resume_hotkeys c = c - 1) ∧
    (resume_hotkeys 0 = 0) ∧
    (∀ ops, runHotkeyOps ops ≤ countSuspend ops) ∧
    (∀ ops, (∀ n, countResume (ops.take n) ≤ countSuspend (ops.take n)) →
      countResume ops = countSuspend ops → runHotkeyOps ops = 0) ∧
    (∀ (Target : Type) (maps : List (HotKey × List Target)) (supp : ℕ)
      (key : KeyInput), 0 < supp → process_hotkeys maps supp key = []) := by
  refine ⟨fun c => rfl, ?_, rfl, ?_, ?_, ?_⟩
  · intro c hc
    simp [resume_hotkeys, hc]
  · intro ops
    have := foldl_hotkey_le ops 0
    simpa [runHotkeyOps] using this
  · intro ops hpre hbal
    have h := foldl_hotkey_balanced ops 0 (by simpa using hpre)
    rw [runHotkeyOps, h, hbal]
    omega
  · intro Target maps supp key hs
    simp [process_hotkeys, hs]

/-- Witness for C10: resume at 2 gives 1; two suspends followed by two
resumes return to zero; suppression 1 silences a matching hotkey press. -/
theorem c10_suppression_counter_witness :
    resume_hotkeys 2 = 1 ∧
    runHotkeyOps [HotkeyOp.suspend, HotkeyOp.suspend,
      HotkeyOp.resume, HotkeyOp.resume] = 0 ∧
    process_hotkeys [(⟨"F1", 0⟩, [(1 : ℕ)])] 1 ⟨0x70, 0⟩ = [] := by
  have h := c10_suppression_counter
  refine ⟨h.2.1 2 (by norm_num), ?_, h.2.2.2.2.2 ℕ [(⟨"F1", 0⟩, [(1 : ℕ)])] 1
    ⟨0x70, 0⟩ (by norm_num)⟩
  apply h.2.2.2.2.1
  · intro n
    rcases n with _ | _ | _ | _ | n
    · simp [countSuspend, countResume]
    · simp [countSuspend, countResume, List.take_succ_cons]
    · simp [countSuspend, countResume, List.take_succ_cons]
    · simp [countSuspend, countResume, List.take_succ_cons]
    · rw [List.take_of_length_le (by simp)]
      simp [countSuspend, countResume]
  · rfl

end UAI
